import Mathlib

/-!
Verification of the SEOAnalyzer crawl-and-analysis pipeline.

The development shallowly embeds the two core source files:

* `sitemap_parser.py` — discovery of the sitemap URL and recursive
  resolution of sitemap indexes into a flat, deduplicated, sorted list of
  page URLs (`SitemapParser.parse_sitemap` / `get_all_urls`);
* `main.py` — duplicate title/description detection
  (`detect_duplicates`), duplicate-warning annotation
  (`add_duplicate_warnings`), and the broken-link validation stage inside
  `main` (the loop that attaches `broken_links_count` /
  `broken_links_detail` and escalates `status`).

XML documents fetched over HTTP are modelled as an inductive tree `Xml`
(tag, text, children), and the network as a finite association list from
URL to the parsed document; a URL absent from that list behaves like a
fetch or XML-parse failure, which the Python code logs and skips.
`ElementTree`'s `find`/`findall` on a tag path search the *direct
children* of the element they are called on — this detail is modelled
faithfully by `Xml.findChild` / `Xml.findallChildren`, because the code's
sitemap-index discrimination (`root.find('sitemap:sitemapindex', ns)`)
depends on it.

Python dict-backed page records become the structure `PageResult` with
`Option` fields for keys that may be absent; Python truthiness of an
optional string (`if result.get('error'):`) is `truthyStr`.
-/

namespace SEOAnalyzer

/-- An XML element as exposed by `xml.etree.ElementTree`: a (namespaced)
tag, optional text content, and the list of child elements.  Tags are
stored without the sitemap namespace prefix, which is constant in the
code (`{http://www.sitemaps.org/schemas/sitemap/0.9}`). -/
inductive Xml : Type where
  | mk (tag : String) (text : Option String) (children : List Xml)

def Xml.tag : Xml → String
  | .mk t _ _ => t

def Xml.text : Xml → Option String
  | .mk _ tx _ => tx

def Xml.children : Xml → List Xml
  | .mk _ _ cs => cs

/-- Model of `element.find(tag, ns)`: first *direct child* whose tag matches.
Note that `find` never matches the element itself — only its children. -/
def Xml.findChild (x : Xml) (t : String) : Option Xml :=
  x.children.find? (fun c => c.tag == t)

/-- Model of `element.findall(tag, ns)`: all *direct children* whose tag matches. -/
def Xml.findallChildren (x : Xml) (t : String) : List Xml :=
  x.children.filter (fun c => c.tag == t)

/-- Python's `str.strip()` (no arguments): drop leading and trailing
whitespace, written as structural recursion over the character list. -/
def pyStrip (s : String) : String :=
  String.mk
    (((s.data.dropWhile Char.isWhitespace).reverse.dropWhile
        Char.isWhitespace).reverse)

/-- The body of the loops at `sitemap_parser.py:118-123` and `:126-130`:
for each child element with tag `t`, take its `<loc>` child, and when the
`loc` element exists and has truthy text, yield `text.strip()`. -/
def locValues (doc : Xml) (t : String) : List String :=
  (doc.findallChildren t).filterMap (fun e =>
    match e.findChild "loc" with
    | some locElem =>
      match locElem.text with
      | some s => if s = "" then none else some (pyStrip s)
      | none => none
    | none => none)

/-- The `<loc>` values of `<sitemap>` entries: the child-sitemap pointers a
sitemap index would be expanded through (`sitemap_parser.py:118-122`). -/
def sitemapLocs (doc : Xml) : List String := locValues doc "sitemap"

/-- The `<loc>` values of `<url>` entries: the page URLs collected from a
document processed in the leaf branch (`sitemap_parser.py:126-130`). -/
def urlLocs (doc : Xml) : List String := locValues doc "url"

/-- The code's sitemap-index test (`sitemap_parser.py:115-116`):
`root.find('sitemap:sitemapindex', namespace) is not None`.  Because
`find` searches direct children, this asks whether the root has a
*child* tagged `sitemapindex`, not whether the root itself is one. -/
def isIndexByChild (doc : Xml) : Bool :=
  (doc.findChild "sitemapindex").isSome

/-- The network, as seen by `self.session.get`: a finite map from URL to
the successfully fetched *and* successfully XML-parsed document.  A URL
missing here stands for an HTTP failure or malformed XML, both of which
`parse_sitemap_recursive` logs and skips. -/
def Web : Type := List (String × Xml)

def Web.length (web : Web) : Nat := List.length web

def Web.domain (web : Web) : List String := web.map Prod.fst

def Web.fetch (web : Web) (url : String) : Option Xml := List.lookup url web

/-- The mutable state of one `parse_sitemap` call: the accumulating URL
set `all_urls`, the guard set `visited_sitemaps`, and (as a ghost
observation for the resource claims) the ordered trace of URLs on which
`session.get` was issued. -/
structure CrawlState where
  all_urls : List String
  visited : List String
  fetched : List String
deriving DecidableEq

/-- Model of `parse_sitemap_recursive` (`sitemap_parser.py:98-137`), with a fuel
parameter standing in for the unbounded Python call stack.  For every
URL: return immediately if visited; otherwise mark visited, fetch (the
fetch attempt is recorded in the ghost trace), and on success either
recurse into each `<sitemap><loc>` child pointer (when the root has a
`sitemapindex` child) or fold every `<url><loc>` value into `all_urls`
(set insertion).  `parseRecFuel_congr` below shows the result is
independent of the fuel once it exceeds the number of fetchable URLs, so
the fuel is a modelling device, not a behaviour change. -/
def parseRecFuel (web : Web) : Nat → String → CrawlState → CrawlState
  | 0, _, st => st
  | fuel + 1, url, st =>
    if url ∈ st.visited then st
    else
      let st1 : CrawlState :=
        { all_urls := st.all_urls
          visited := url :: st.visited
          fetched := st.fetched ++ [url] }
      match web.fetch url with
      | none => st1
      | some doc =>
        if isIndexByChild doc then
          (sitemapLocs doc).foldl (fun s c => parseRecFuel web fuel c s) st1
        else
          { st1 with
              all_urls := (urlLocs doc).foldl (fun l u => l.insert u) st1.all_urls }

/-- The loop at `sitemap_parser.py:118-123` in isolation: recursive
calls over a list of child-sitemap URLs, threading the state. -/
def parseFoldFuel (web : Web) (fuel : Nat) (urls : List String)
    (st : CrawlState) : CrawlState :=
  urls.foldl (fun s c => parseRecFuel web fuel c s) st

/-- How many fetchable URLs are still unvisited: the recursion's
termination measure. -/
def unvisitedCount (web : Web) (visited : List String) : Nat :=
  ((Web.domain web).filter (fun u => decide (¬ u ∈ visited))).length

/-- Model of `SitemapParser.parse_sitemap` (`sitemap_parser.py:81-140`): run the
recursion from fresh `all_urls` / `visited_sitemaps` sets.  Fuel
`web.length + 1` is always enough (`parseRecFuel_congr`). -/
def parse_sitemap (web : Web) (sitemap_url : String) : CrawlState :=
  parseRecFuel web (web.length + 1) sitemap_url ⟨[], [], []⟩

/-- Python truthiness of an optional string: `None` and `''` are falsy. -/
def truthyStr : Option String → Bool
  | some s => s != ""
  | none => false

/-- Lexicographic (code-point) comparison of character lists: the order
Python's `sorted` applies to strings.  Written as structural recursion
so that concrete runs compute; `strLe_iff_le` below shows it coincides
with the library's string order. -/
def charListLe : List Char → List Char → Bool
  | [], _ => true
  | _ :: _, [] => false
  | a :: as, b :: bs =>
    if a < b then true
    else if b < a then false
    else charListLe as bs

/-- Computable `a <= b` on strings. -/
def strLe (a b : String) : Bool := charListLe a.data b.data

/-- Model of `SitemapParser.get_all_urls` (`sitemap_parser.py:142-157`).
`find_sitemap`'s result is passed in as `found` (its value is decided by
live HTTP probing of `/sitemap.xml`, `/sitemap_index.xml`,
`/sitemap1.xml` and `robots.txt`, which is outside the embedded state);
`if not sitemap_url: raise ValueError(...)` maps to the `Except.error`
branch on a falsy value, and otherwise the parsed URL set is returned as
`sorted(list(urls))`. -/
def get_all_urls (web : Web) (found : Option String) :
    Except String (List String) :=
  match found with
  | none => Except.error "Nepodařilo se najít sitemapu"
  | some sitemap_url =>
    if sitemap_url = "" then Except.error "Nepodařilo se najít sitemapu"
    else
      Except.ok
        (List.insertionSort (fun a b => strLe a b = true)
          (parse_sitemap web sitemap_url).all_urls)

/-! ## main.py: page records, duplicate detection, annotation stages -/

/-- The three severities a page record's `status` field takes in the
code: the string values `'ok'`, `'warning'`, `'error'`. -/
inductive Status : Type where
  | ok
  | warning
  | error
deriving DecidableEq, Repr

/-- Numeric severity, encoding the escalation order ok < warning < error
used by the spec's monotonicity property. -/
def Status.rank : Status → Nat
  | .ok => 0
  | .warning => 1
  | .error => 2

/-- Shape of the return value of `validate_page_links` (consumed at `main.py:201-207`):
`total_broken` plus the itemized broken link/image lists.  The link
checker itself issues live HTTP requests and is treated as an external
collaborator; only its result shape matters here. -/
structure LinkValidation where
  total_broken : Nat
  broken_links : List String
  broken_images : List String
deriving DecidableEq, Repr

structure BrokenDetail where
  broken_links : List String
  broken_images : List String
deriving DecidableEq, Repr

/-- One analysis-result dict produced by `SEOScraper.scrape_url` and
mutated by the later stages of `main`.  Optional fields model dict keys
that may be absent or `None`; in particular `broken_links_count` /
`broken_links_detail` are `none` until (and unless) some stage writes
them. -/
structure PageResult where
  url : String
  title : Option String
  meta_description : Option String
  error : Option String
  issues : List String
  status : Status
  broken_links_count : Option Nat
  broken_links_detail : Option BrokenDetail
deriving DecidableEq, Repr

/-- The comprehension at `main.py:30-37`, title component: collect
`result.get('title')` for every result where it is truthy. -/
def collectTitles (results : List PageResult) : List String :=
  results.filterMap (fun r =>
    match r.title with
    | some s => if s = "" then none else some s
    | none => none)

/-- The comprehension at `main.py:30-37`, description component. -/
def collectDescriptions (results : List PageResult) : List String :=
  results.filterMap (fun r =>
    match r.meta_description with
    | some s => if s = "" then none else some s
    | none => none)

/-- Order-preserving deduplication: the key order of a Python `Counter`
(insertion order of first occurrences). -/
def dedupFirst : List String → List String
  | [] => []
  | a :: l => a :: dedupFirst (l.filter (fun b => ¬ b = a))
termination_by l => l.length
decreasing_by
  simp only [List.length_cons]
  exact Nat.lt_succ_of_le (List.length_filter_le _ _)

/-- Model of `detect_duplicates` (`main.py:17-46`): collect truthy titles and
descriptions, count occurrences, and keep the values whose count exceeds
one, in `Counter.items()` order (first-occurrence order). -/
def detect_duplicates (results : List PageResult) :
    List String × List String :=
  let titles := collectTitles results
  let descriptions := collectDescriptions results
  ((dedupFirst titles).filter (fun t => titles.count t > 1),
   (dedupFirst descriptions).filter (fun d => descriptions.count d > 1))

/-- Membership test `x in list` as Python evaluates it on an optional
value: `None in list_of_strings` is `False`. -/
def optMem (x : Option String) (l : List String) : Bool :=
  match x with
  | some s => s ∈ l
  | none => false

/-- The loop body of `add_duplicate_warnings` (`main.py:58-70`) on one
result: when the title is in the duplicate-title list, append the issue
string and escalate `ok → warning`; then the same for the description. -/
def add_duplicate_warnings_one (duplicate_titles duplicate_descriptions : List String)
    (r : PageResult) : PageResult :=
  let r1 :=
    match r.title with
    | some t =>
      if t ∈ duplicate_titles then
        { r with
            issues := r.issues ++ ["Duplicitní title: \"" ++ t ++ "\""]
            status := if r.status = Status.ok then Status.warning else r.status }
      else r
    | none => r
  match r1.meta_description with
  | some d =>
    if d ∈ duplicate_descriptions then
      { r1 with
          issues := r1.issues ++ ["Duplicitní description: \"" ++ d ++ "\""]
          status := if r1.status = Status.ok then Status.warning else r1.status }
    else r1
  | none => r1

/-- Model of `add_duplicate_warnings` (`main.py:49-70`): the in-place loop over
`results`, embedded as a map producing the post-mutation list. -/
def add_duplicate_warnings (results : List PageResult)
    (duplicate_titles duplicate_descriptions : List String) : List PageResult :=
  results.map (add_duplicate_warnings_one duplicate_titles duplicate_descriptions)

/-- One iteration of the link-validation loop (`main.py:192-214`),
together with the trace of `validate_page_links` invocations it makes
(`[]` or the one page URL).  `linkcheck url` packages the re-fetch
`seo_scraper.fetch_page(result['url'])` followed by
`link_validator.validate_page_links`: `none` models `soup` being falsy
(re-fetch failed, validator never called), `some lv` the validator's
outcome on the fetched HTML.  A result with a truthy `error` is skipped
by the `continue` at `main.py:193-194`. -/
def validate_links_traced (linkcheck : String → Option LinkValidation)
    (r : PageResult) : PageResult × List String :=
  if truthyStr r.error then (r, [])
  else
    match linkcheck r.url with
    | none => (r, [])
    | some lv =>
      let r1 :=
        { r with
            broken_links_count := some lv.total_broken
            broken_links_detail := some ⟨lv.broken_links, lv.broken_images⟩ }
      if lv.total_broken > 0 then
        let r2 :=
          { r1 with
              issues :=
                r1.issues ++ [toString lv.total_broken ++ " broken links/obrázků"]
              status := if r1.status = Status.ok then Status.warning else r1.status }
        (if lv.total_broken > 5 then { r2 with status := Status.error } else r2,
         [r.url])
      else (r1, [r.url])

/-- The per-result state after the link-validation loop, without the
invocation trace. -/
def validate_links_one (linkcheck : String → Option LinkValidation)
    (r : PageResult) : PageResult :=
  (validate_links_traced linkcheck r).1

/-- Step 3 of `main` (`main.py:186-218`): when `--skip-links` is not set,
run the validation loop over every result (collecting the trace of
validator invocations); when it is set, the `LinkValidator` is never
constructed and each result merely gets `broken_links_count = 0`. -/
def link_validation_stage (skip_links : Bool)
    (linkcheck : String → Option LinkValidation)
    (results : List PageResult) : List PageResult × List String :=
  if skip_links then
    (results.map (fun r => { r with broken_links_count := some 0 }), [])
  else
    (results.map (validate_links_one linkcheck),
     (results.map (fun r => (validate_links_traced linkcheck r).2)).flatten)

/-- Steps 3 and 4 of `main` (`main.py:186-223`): link validation followed
by duplicate detection and annotation, returning the final result list
and the validator-invocation trace. -/
def analysis_pipeline (skip_links : Bool)
    (linkcheck : String → Option LinkValidation)
    (scraped : List PageResult) : List PageResult × List String :=
  let step3 := link_validation_stage skip_links linkcheck scraped
  let dups := detect_duplicates step3.1
  (add_duplicate_warnings step3.1 dups.1 dups.2, step3.2)

/-! ## Concrete inputs used by witnesses and counterexamples -/

/-- Literal `<loc>s</loc>` element. -/
def locElem (s : String) : Xml := Xml.mk "loc" (some s) []

/-- Literal `<sitemap><loc>s</loc></sitemap>`: one child pointer of an index. -/
def smEntry (s : String) : Xml := Xml.mk "sitemap" none [locElem s]

/-- Literal `<url><loc>s</loc></url>`: one page entry of a leaf sitemap. -/
def urlEntry (s : String) : Xml := Xml.mk "url" none [locElem s]

/-- Scenario B's root document: a standard sitemap index whose *root
element* is `sitemapindex`, pointing at two child sitemaps. -/
def idxDocB : Xml :=
  Xml.mk "sitemapindex" none
    [smEntry "http://ex/s1.xml", smEntry "http://ex/s2.xml"]

/-- Scenario B's first child sitemap: a leaf with 2 page URLs. -/
def leafB1 : Xml :=
  Xml.mk "urlset" none [urlEntry "http://ex/a", urlEntry "http://ex/b"]

/-- Scenario B's second child sitemap: a leaf with 3 page URLs. -/
def leafB2 : Xml :=
  Xml.mk "urlset" none
    [urlEntry "http://ex/c", urlEntry "http://ex/d", urlEntry "http://ex/e"]

/-- Scenario B's network: `/sitemap.xml` is the index, the two children
are leaves with 2 and 3 URLs, no overlap. -/
def webB : Web :=
  [("http://ex/sitemap.xml", idxDocB),
   ("http://ex/s1.xml", leafB1),
   ("http://ex/s2.xml", leafB2)]

/-- A one-leaf network used by witnesses. -/
def webLeaf : Web := [("http://ex/sitemap.xml", leafB2)]

/-- A document that the code *does* classify as an index (it has a
`sitemapindex` child), whose pointers reference itself (a cycle) and the
same child twice. -/
def cycIdxDoc : Xml :=
  Xml.mk "x" none
    [Xml.mk "sitemapindex" none [], smEntry "http://ex/cyc.xml",
     smEntry "http://ex/s1.xml", smEntry "http://ex/s1.xml"]

/-- A network with a cyclic, duplicate-laden sitemap reference graph. -/
def webCyc : Web :=
  [("http://ex/cyc.xml", cycIdxDoc), ("http://ex/s1.xml", leafB1)]

/-- A fresh scraped page result with the given title and description. -/
def mkPage (u : String) (t d : Option String) : PageResult :=
  { url := u
    title := t
    meta_description := d
    error := none
    issues := []
    status := Status.ok
    broken_links_count := none
    broken_links_detail := none }

/-- A scraped result whose fetch failed, as `SEOScraper.scrape_url`
produces it: `error` set, `status = error`, no link fields. -/
def failedPage (u : String) : PageResult :=
  { url := u
    title := none
    meta_description := none
    error := some "Connection timeout"
    issues := []
    status := Status.error
    broken_links_count := none
    broken_links_detail := none }

/-- A link-check oracle reporting 7 broken targets on every page. -/
def sevenBroken : String → Option LinkValidation :=
  fun _ => some { total_broken := 7, broken_links := ["http://ex/x"], broken_images := [] }

/-! ## Helper lemmas -/

theorem mem_dedupFirst {s : String} : ∀ {l : List String}, s ∈ dedupFirst l ↔ s ∈ l := by
  intro l
  induction l using dedupFirst.induct with
  | case1 => simp [dedupFirst]
  | case2 a l ih =>
    rw [dedupFirst]
    by_cases hsa : s = a
    · subst hsa; simp
    · simp only [List.mem_cons, hsa, false_or, ih, List.mem_filter]
      constructor
      · exact fun h => h.1
      · exact fun h => ⟨h, by simp [hsa]⟩

theorem collectTitles_ne_empty {results : List PageResult} {s : String}
    (h : s ∈ collectTitles results) : s ≠ "" := by
  rcases List.mem_filterMap.mp h with ⟨r, _, hr⟩
  rcases hx : r.title with _ | t <;> rw [hx] at hr
  · cases hr
  · by_cases ht : t = "" <;> simp [ht] at hr
    rcases hr with ⟨rfl⟩
    exact ht

theorem collectDescriptions_ne_empty {results : List PageResult} {s : String}
    (h : s ∈ collectDescriptions results) : s ≠ "" := by
  rcases List.mem_filterMap.mp h with ⟨r, _, hr⟩
  rcases hx : r.meta_description with _ | t <;> rw [hx] at hr
  · cases hr
  · by_cases ht : t = "" <;> simp [ht] at hr
    rcases hr with ⟨rfl⟩
    exact ht

theorem count_collectTitles {s : String} (hs : s ≠ "") :
    ∀ (results : List PageResult),
      (collectTitles results).count s
        = results.countP (fun r => r.title == some s) := by
  intro results
  induction results with
  | nil => rfl
  | cons r rest ih =>
    rw [collectTitles] at ih ⊢
    rcases hx : r.title with _ | t
    · simp [List.filterMap_cons, hx, List.countP_cons, ih]
    · by_cases ht : t = ""
      · subst ht
        simp [List.filterMap_cons, hx, List.countP_cons, ih, Ne.symm hs]
      · by_cases hts : t = s
        · subst hts
          simp [List.filterMap_cons, hx, ht, List.countP_cons, ih, List.count_cons]
        · simp [List.filterMap_cons, hx, ht, List.countP_cons, ih, List.count_cons, hts]

theorem count_collectDescriptions {s : String} (hs : s ≠ "") :
    ∀ (results : List PageResult),
      (collectDescriptions results).count s
        = results.countP (fun r => r.meta_description == some s) := by
  intro results
  induction results with
  | nil => rfl
  | cons r rest ih =>
    rw [collectDescriptions] at ih ⊢
    rcases hx : r.meta_description with _ | t
    · simp [List.filterMap_cons, hx, List.countP_cons, ih]
    · by_cases ht : t = ""
      · subst ht
        simp [List.filterMap_cons, hx, List.countP_cons, ih, Ne.symm hs]
      · by_cases hts : t = s
        · subst hts
          simp [List.filterMap_cons, hx, ht, List.countP_cons, ih, List.count_cons]
        · simp [List.filterMap_cons, hx, ht, List.countP_cons, ih, List.count_cons, hts]

/-! ## Claim theorems -/

/-- C2: for every list of page results, `detect_duplicates` returns in
its first (resp. second) component exactly the non-empty title (resp.
meta-description) values whose occurrence count across the input is
strictly greater than one; a value occurring at most once never appears,
and pages with an empty or missing value never feed the counters (the
count below only inspects pages whose field equals the non-empty value
itself). -/
theorem detect_duplicates_iff_count_gt_one
    (results : List PageResult) (s : String) :
    (s ∈ (detect_duplicates results).1 ↔
      s ≠ "" ∧ 1 < results.countP (fun r => r.title == some s)) ∧
    (s ∈ (detect_duplicates results).2 ↔
      s ≠ "" ∧ 1 < results.countP (fun r => r.meta_description == some s)) := by
  constructor
  · rw [detect_duplicates]
    simp only [List.mem_filter, mem_dedupFirst, decide_eq_true_eq]
    constructor
    · rintro ⟨hmem, hcount⟩
      have hs := collectTitles_ne_empty hmem
      exact ⟨hs, by rwa [count_collectTitles hs] at hcount⟩
    · rintro ⟨hs, hcount⟩
      rw [← count_collectTitles hs results] at hcount
      exact ⟨List.count_pos_iff.mp (Nat.lt_of_lt_of_le Nat.zero_lt_one
        (Nat.le_of_lt hcount)), hcount⟩
  · rw [detect_duplicates]
    simp only [List.mem_filter, mem_dedupFirst, decide_eq_true_eq]
    constructor
    · rintro ⟨hmem, hcount⟩
      have hs := collectDescriptions_ne_empty hmem
      exact ⟨hs, by rwa [count_collectDescriptions hs] at hcount⟩
    · rintro ⟨hs, hcount⟩
      rw [← count_collectDescriptions hs results] at hcount
      exact ⟨List.count_pos_iff.mp (Nat.lt_of_lt_of_le Nat.zero_lt_one
        (Nat.le_of_lt hcount)), hcount⟩

theorem esc_rank_le (s : Status) :
    s.rank ≤ (if s = Status.ok then Status.warning else s).rank := by
  cases s <;> simp [Status.rank]

/-- Full characterisation of one `add_duplicate_warnings` loop body:
only `issues` (by appending) and `status` (by the `ok → warning`
escalation) ever change, and nothing changes when neither value is in
its duplicate list. -/
theorem add_duplicate_warnings_one_spec
    (dts dds : List String) (r : PageResult) :
    let r' := add_duplicate_warnings_one dts dds r
    r'.url = r.url ∧ r'.title = r.title ∧
    r'.meta_description = r.meta_description ∧ r'.error = r.error ∧
    r'.broken_links_count = r.broken_links_count ∧
    r'.broken_links_detail = r.broken_links_detail ∧
    (∃ app, r'.issues = r.issues ++ app) ∧
    (r'.status = r.status ∨ (r.status = Status.ok ∧ r'.status = Status.warning)) ∧
    (optMem r.title dts = false → optMem r.meta_description dds = false → r' = r) := by
  unfold add_duplicate_warnings_one optMem
  cases ht : r.title <;> cases hd : r.meta_description <;>
    simp [ht, hd] <;> (try split_ifs) <;> simp [ht, hd] <;> (try split_ifs) <;>
    cases hs : r.status <;> simp_all [Status.rank]

/-- The `continue` at `main.py:193-194`: a result with truthy `error` is
returned untouched and triggers no validator call. -/
theorem validate_links_traced_error (lc : String → Option LinkValidation)
    (r : PageResult) (h : truthyStr r.error = true) :
    validate_links_traced lc r = (r, []) := by
  unfold validate_links_traced
  simp [h]

/-- One link-validation loop iteration never lowers the status rank. -/
theorem validate_links_one_rank_le (lc : String → Option LinkValidation)
    (r : PageResult) :
    r.status.rank ≤ (validate_links_one lc r).status.rank := by
  unfold validate_links_one validate_links_traced
  cases he : truthyStr r.error
  · cases hl : lc r.url
    · simp [he, hl]
    · simp only [he, hl, Bool.false_eq_true, if_false]
      split_ifs <;> cases hs : r.status <;> simp_all [Status.rank]
  · simp [he]

/-- C3: status escalation is monotonic in the order
ok < warning < error: for every page result, both annotation steps — the
duplicate-warning loop body of `add_duplicate_warnings` and the
broken-link annotation performed by the link-validation loop of `main` —
produce a status whose severity rank is greater than or equal to the
input's, so a page never moves from error to warning/ok nor from warning
to ok. -/
theorem status_escalation_monotonic (dts dds : List String)
    (lc : String → Option LinkValidation) (r : PageResult) :
    r.status.rank ≤ (add_duplicate_warnings_one dts dds r).status.rank ∧
    r.status.rank ≤ (validate_links_one lc r).status.rank := by
  refine ⟨?_, validate_links_one_rank_le lc r⟩
  have h := add_duplicate_warnings_one_spec dts dds r
  simp only at h
  rcases h.2.2.2.2.2.2.2.1 with heq | ⟨hok, hw⟩
  · rw [heq]
  · rw [hok, hw]
    simp [Status.rank]

/-- C4: for every successfully fetched page processed by the
link-validation stage (no `error`, re-fetch produced a document, so the
validator returned `lv`): `broken_links_count` is set to the broken
count; when that count is positive an issue string containing the count
is appended and the resulting status is at least `warning`; and when the
count exceeds 5 the status is `error` regardless of its prior value. -/
theorem broken_links_escalation (lc : String → Option LinkValidation)
    (r : PageResult) (lv : LinkValidation)
    (he : truthyStr r.error = false) (hl : lc r.url = some lv) :
    (validate_links_one lc r).broken_links_count = some lv.total_broken ∧
    (0 < lv.total_broken →
      (validate_links_one lc r).issues
          = r.issues ++ [toString lv.total_broken ++ " broken links/obrázků"] ∧
      Status.warning.rank ≤ (validate_links_one lc r).status.rank) ∧
    (5 < lv.total_broken → (validate_links_one lc r).status = Status.error) := by
  unfold validate_links_one validate_links_traced
  simp only [he, hl, Bool.false_eq_true, if_false]
  split_ifs with h1 h2 <;> cases hs : r.status <;>
    simp_all [Status.rank]

/-- C9: when link validation is enabled, a page result whose `error`
field is set (truthy) is skipped entirely by the link-validation loop:
it comes out of the iteration identical to how it went in — so it gains
no `broken_links_count` or `broken_links_detail` field and its `issues`
and `status` are untouched — and `validate_page_links` is not invoked on
it. -/
theorem error_page_skipped_by_link_validation
    (lc : String → Option LinkValidation) (r : PageResult)
    (h : truthyStr r.error = true) :
    validate_links_one lc r = r ∧
    (validate_links_traced lc r).2 = [] ∧
    (validate_links_one lc r).broken_links_count = r.broken_links_count ∧
    (validate_links_one lc r).broken_links_detail = r.broken_links_detail ∧
    (validate_links_one lc r).issues = r.issues ∧
    (validate_links_one lc r).status = r.status := by
  have he := validate_links_traced_error lc r h
  unfold validate_links_one
  rw [he]
  exact ⟨rfl, rfl, rfl, rfl, rfl, rfl⟩

/-- C10: `add_duplicate_warnings` keeps the result list's length, and
rewrites each entry only by appending issue strings and possibly raising
its status from ok to warning; `url`, `title`, `meta_description`,
`error` and the broken-link fields are unchanged, and an entry whose
title and description are both outside the duplicate lists is returned
entirely unchanged. -/
theorem add_duplicate_warnings_frame (results : List PageResult)
    (dts dds : List String) :
    (add_duplicate_warnings results dts dds).length = results.length ∧
    ∀ (i : Nat) (hi : i < results.length),
      ∃ hi2 : i < (add_duplicate_warnings results dts dds).length,
        let r := results.get ⟨i, hi⟩
        let r' := (add_duplicate_warnings results dts dds).get ⟨i, hi2⟩
        r'.url = r.url ∧ r'.title = r.title ∧
        r'.meta_description = r.meta_description ∧ r'.error = r.error ∧
        r'.broken_links_count = r.broken_links_count ∧
        r'.broken_links_detail = r.broken_links_detail ∧
        (∃ app, r'.issues = r.issues ++ app) ∧
        (r'.status = r.status ∨ (r.status = Status.ok ∧ r'.status = Status.warning)) ∧
        (optMem r.title dts = false → optMem r.meta_description dds = false →
          r' = r) := by
  have hlen : (add_duplicate_warnings results dts dds).length = results.length := by
    simp [add_duplicate_warnings]
  refine ⟨hlen, fun i hi => ⟨hlen ▸ hi, ?_⟩⟩
  have hget : (add_duplicate_warnings results dts dds).get ⟨i, hlen ▸ hi⟩
      = add_duplicate_warnings_one dts dds (results.get ⟨i, hi⟩) := by
    simp [add_duplicate_warnings]
  simp only [hget]
  exact add_duplicate_warnings_one_spec dts dds (results.get ⟨i, hi⟩)

/-- C7: with the skip-link-validation flag set, every result coming out
of the pipeline (link stage followed by duplicate annotation) carries
`broken_links_count = 0`, and the validator-invocation trace is empty —
no `validate_page_links` call is ever made. -/
theorem skip_links_no_validation (lc : String → Option LinkValidation)
    (scraped : List PageResult) :
    (∀ r ∈ (analysis_pipeline true lc scraped).1,
        r.broken_links_count = some 0) ∧
    (analysis_pipeline true lc scraped).2 = [] := by
  constructor
  · intro r hr
    rw [analysis_pipeline] at hr
    simp only [link_validation_stage, if_true, add_duplicate_warnings,
      List.map_map, List.mem_map] at hr
    obtain ⟨r0, _, rfl⟩ := hr
    have h := add_duplicate_warnings_one_spec
      (detect_duplicates (scraped.map
        (fun r => { r with broken_links_count := some 0 }))).1
      (detect_duplicates (scraped.map
        (fun r => { r with broken_links_count := some 0 }))).2
      { r0 with broken_links_count := some 0 }
    simp only at h
    simpa using h.2.2.2.2.1
  · rw [analysis_pipeline]
    simp [link_validation_stage]

/-- C5: when `find_sitemap` comes back empty, `get_all_urls` raises the
distinct "no sitemap" `ValueError` (a terminal condition for the run),
whereas a sitemap that is found but yields zero page URLs produces an
empty — but successful — result: the two conditions reach the caller
through different channels. -/
theorem no_sitemap_error_vs_empty_sitemap (web : Web) (u : String)
    (hu : u ≠ "") (hempty : (parse_sitemap web u).all_urls = []) :
    get_all_urls web none = Except.error "Nepodařilo se najít sitemapu" ∧
    get_all_urls web (some u) = Except.ok [] := by
  refine ⟨rfl, ?_⟩
  unfold get_all_urls
  simp [hu, hempty]

/-- Witness for `broken_links_escalation`: a concrete page with 7 broken
targets gets `broken_links_count = 7` and status `error`. -/
theorem broken_links_escalation_witness :
    (validate_links_one sevenBroken (mkPage "http://ex/a" (some "T") none)).broken_links_count
        = some 7 ∧
    (validate_links_one sevenBroken (mkPage "http://ex/a" (some "T") none)).status
        = Status.error := by
  have h := broken_links_escalation sevenBroken
    (mkPage "http://ex/a" (some "T") none)
    { total_broken := 7, broken_links := ["http://ex/x"], broken_images := [] }
    rfl rfl
  exact ⟨h.1, h.2.2 (by decide)⟩

/-- Witness for `error_page_skipped_by_link_validation` at a concrete
failed page. -/
theorem error_page_skipped_witness :
    validate_links_one sevenBroken (failedPage "http://ex/a") = failedPage "http://ex/a" := by
  have h := error_page_skipped_by_link_validation sevenBroken
    (failedPage "http://ex/a") (by decide)
  exact h.1

/-- Witness for `add_duplicate_warnings_frame`: a page whose title and
description are outside the duplicate lists passes through unchanged. -/
theorem add_duplicate_warnings_frame_witness :
    add_duplicate_warnings [mkPage "http://ex/a" (some "B") none] ["A"] []
      = [mkPage "http://ex/a" (some "B") none] := by
  have h := add_duplicate_warnings_frame
    [mkPage "http://ex/a" (some "B") none] ["A"] []
  obtain ⟨hi2, hspec⟩ := h.2 0 (by decide)
  simp only at hspec
  have hr := hspec.2.2.2.2.2.2.2.2 (by decide) (by decide)
  apply List.ext_get (by simpa using h.1)
  intro i h1 h2
  simp only [List.length_cons, List.length_nil] at h2
  have hi0 : i = 0 := by omega
  subst hi0
  exact hr

/-- Witness for `skip_links_no_validation` on a concrete scraped list. -/
theorem skip_links_no_validation_witness :
    ((analysis_pipeline true sevenBroken [mkPage "http://ex/a" (some "T") none]).1.all
        (fun r => r.broken_links_count == some 0)) = true ∧
    (analysis_pipeline true sevenBroken [mkPage "http://ex/a" (some "T") none]).2 = [] := by
  have h := skip_links_no_validation sevenBroken
    [mkPage "http://ex/a" (some "T") none]
  refine ⟨List.all_eq_true.mpr (fun r hr => ?_), h.2⟩
  rw [h.1 r hr]
  rfl

/-- Witness for `no_sitemap_error_vs_empty_sitemap`: an empty network —
`find_sitemap` failing yields the error, a found-but-unfetchable sitemap
yields the empty list. -/
theorem no_sitemap_error_witness :
    get_all_urls ([] : Web) none = Except.error "Nepodařilo se najít sitemapu" ∧
    get_all_urls ([] : Web) (some "http://ex/sitemap.xml") = Except.ok [] :=
  no_sitemap_error_vs_empty_sitemap ([] : Web) "http://ex/sitemap.xml"
    (by decide) rfl

/-! ## Termination and visited-set machinery for the sitemap recursion -/

theorem parseRecFuel_zero (web : Web) (url : String) (st : CrawlState) :
    parseRecFuel web 0 url st = st := rfl

theorem parseFoldFuel_nil (web : Web) (fuel : Nat) (st : CrawlState) :
    parseFoldFuel web fuel [] st = st := rfl

theorem parseFoldFuel_cons (web : Web) (fuel : Nat) (c : String)
    (rest : List String) (st : CrawlState) :
    parseFoldFuel web fuel (c :: rest) st
      = parseFoldFuel web fuel rest (parseRecFuel web fuel c st) := rfl

theorem parseFoldFuel_zero (web : Web) :
    ∀ (urls : List String) (st : CrawlState),
      parseFoldFuel web 0 urls st = st := by
  intro urls
  induction urls with
  | nil => intro st; rfl
  | cons c rest ih =>
    intro st
    rw [parseFoldFuel_cons, parseRecFuel_zero]
    exact ih st

theorem mem_domain_of_fetch {web : Web} {url : String} {doc : Xml}
    (h : Web.fetch web url = some doc) : url ∈ Web.domain web := by
  unfold Web.fetch at h
  induction web with
  | nil => cases h
  | cons p rest ih =>
    rw [List.lookup] at h
    rcases hbeq : url == p.1 with _ | _
    · rw [hbeq] at h
      exact List.mem_cons_of_mem _ (ih h)
    · exact (eq_of_beq hbeq) ▸ List.mem_cons_self _ _

theorem unvisitedCount_le_of_subset {web : Web} {v1 v2 : List String}
    (h : v1 ⊆ v2) : unvisitedCount web v2 ≤ unvisitedCount web v1 := by
  unfold unvisitedCount
  refine List.Sublist.length_le (List.monotone_filter_right _ ?_)
  intro u hu
  simp only [decide_eq_true_eq] at hu ⊢
  exact fun hm => hu (h hm)

theorem length_filter_unvisited_lt {url : String} {visited : List String}
    (hnv : url ∉ visited) :
    ∀ {l : List String}, url ∈ l →
      (l.filter (fun u => decide (¬ u ∈ url :: visited))).length
        < (l.filter (fun u => decide (¬ u ∈ visited))).length := by
  intro l
  induction l with
  | nil => intro h; cases h
  | cons a rest ih =>
    intro hmem
    by_cases ha : a = url
    · subst ha
      rw [List.filter_cons, List.filter_cons]
      have h1 : (decide (¬ a ∈ a :: visited)) = false := by simp
      have h2 : (decide (¬ a ∈ visited)) = true := by simp [hnv]
      rw [h1, h2]
      have hle : (rest.filter (fun u => decide (¬ u ∈ a :: visited))).length
          ≤ (rest.filter (fun u => decide (¬ u ∈ visited))).length := by
        refine List.Sublist.length_le (List.monotone_filter_right _ ?_)
        intro u hu
        simp only [decide_eq_true_eq, List.mem_cons] at hu ⊢
        exact fun hm => hu (Or.inr hm)
      simpa using Nat.lt_succ_of_le hle
    · have hrest : url ∈ rest := by
        rcases List.mem_cons.mp hmem with h | h
        · exact absurd h.symm ha
        · exact h
      rw [List.filter_cons, List.filter_cons]
      by_cases hav : a ∈ visited
      · have h1 : (decide (¬ a ∈ url :: visited)) = false := by
          simp [List.mem_cons, hav]
        have h2 : (decide (¬ a ∈ visited)) = false := by simp [hav]
        rw [h1, h2]
        exact ih hrest
      · have h1 : (decide (¬ a ∈ url :: visited)) = true := by
          simp [List.mem_cons, hav, ha]
        have h2 : (decide (¬ a ∈ visited)) = true := by simp [hav]
        rw [h1, h2]
        simpa using Nat.succ_lt_succ (ih hrest)

theorem unvisitedCount_cons_lt {web : Web} {url : String} {visited : List String}
    (hd : url ∈ Web.domain web) (hnv : url ∉ visited) :
    unvisitedCount web (url :: visited) < unvisitedCount web visited :=
  length_filter_unvisited_lt hnv hd

theorem unvisitedCount_le_length (web : Web) (visited : List String) :
    unvisitedCount web visited ≤ web.length := by
  unfold unvisitedCount
  calc ((Web.domain web).filter _).length ≤ (Web.domain web).length :=
        List.length_filter_le _ _
    _ = web.length := List.length_map _ _

/-- The visited set only ever grows, both through one recursive call and
through a fold over child-sitemap URLs. -/
theorem parseRecFuel_visited_mono (web : Web) :
    ∀ fuel : Nat,
      (∀ url st, st.visited ⊆ (parseRecFuel web fuel url st).visited) ∧
      (∀ urls st, st.visited ⊆ (parseFoldFuel web fuel urls st).visited) := by
  intro fuel
  induction fuel with
  | zero =>
    refine ⟨fun url st => ?_, fun urls st => ?_⟩
    · rw [parseRecFuel_zero]
      exact fun x hx => hx
    · rw [parseFoldFuel_zero]
      exact fun x hx => hx
  | succ f ih =>
    have hone : ∀ url st, st.visited ⊆ (parseRecFuel web (f + 1) url st).visited := by
      intro url st
      rw [parseRecFuel]
      by_cases hv : url ∈ st.visited
      · rw [if_pos hv]
        exact fun x hx => hx
      · rw [if_neg hv]
        have hstep : st.visited ⊆ url :: st.visited := List.subset_cons_self _ _
        cases hf : Web.fetch web url with
        | none => simp [hf]
        | some doc =>
          by_cases hidx : isIndexByChild doc
          · simp only [hf, hidx, if_true]
            exact hstep.trans (ih.2 (sitemapLocs doc)
              ⟨st.all_urls, url :: st.visited, st.fetched ++ [url]⟩)
          · simp [hf, hidx]
    refine ⟨hone, fun urls => ?_⟩
    induction urls with
    | nil =>
      intro st
      rw [parseFoldFuel_nil]
      exact fun x hx => hx
    | cons c rest ihr =>
      intro st
      rw [parseFoldFuel_cons]
      exact (hone c st).trans (ihr _)

/-- Fuel-independence: once the fuel exceeds the number of fetchable
still-unvisited URLs, the recursion's result no longer depends on it —
the Python recursion (which has no fuel) terminates, and
`parse_sitemap`'s fixed fuel `web.length + 1` computes its value. -/
theorem parseRecFuel_congr (web : Web) :
    ∀ fuel₁ : Nat,
      (∀ fuel₂ url st, unvisitedCount web st.visited < fuel₁ →
        unvisitedCount web st.visited < fuel₂ →
        parseRecFuel web fuel₁ url st = parseRecFuel web fuel₂ url st) ∧
      (∀ fuel₂ urls st, unvisitedCount web st.visited < fuel₁ →
        unvisitedCount web st.visited < fuel₂ →
        parseFoldFuel web fuel₁ urls st = parseFoldFuel web fuel₂ urls st) := by
  intro fuel₁
  induction fuel₁ with
  | zero =>
    exact ⟨fun _ _ _ h => absurd h (Nat.not_lt_zero _),
           fun _ _ _ h => absurd h (Nat.not_lt_zero _)⟩
  | succ f ih =>
    have hone : ∀ fuel₂ url st, unvisitedCount web st.visited < f + 1 →
        unvisitedCount web st.visited < fuel₂ →
        parseRecFuel web (f + 1) url st = parseRecFuel web fuel₂ url st := by
      intro fuel₂ url st h1 h2
      obtain ⟨k, rfl⟩ : ∃ k, fuel₂ = k + 1 := ⟨fuel₂ - 1, by omega⟩
      rw [parseRecFuel, parseRecFuel]
      by_cases hv : url ∈ st.visited
      · rw [if_pos hv, if_pos hv]
      · rw [if_neg hv, if_neg hv]
        cases hf : Web.fetch web url with
        | none => simp [hf]
        | some doc =>
          by_cases hidx : isIndexByChild doc
          · simp only [hf, hidx, if_true]
            have hd := mem_domain_of_fetch hf
            have hlt := unvisitedCount_cons_lt hd hv
            exact ih.2 k (sitemapLocs doc) _ (by simp only []; omega) (by simp only []; omega)
          · simp [hf, hidx]
    refine ⟨hone, fun fuel₂ urls => ?_⟩
    induction urls with
    | nil => intro st h1 h2; rw [parseFoldFuel_nil, parseFoldFuel_nil]
    | cons c rest ihr =>
      intro st h1 h2
      rw [parseFoldFuel_cons, parseFoldFuel_cons, ← hone fuel₂ c st h1 h2]
      have hsub := (parseRecFuel_visited_mono web (f + 1)).1 c st
      have hle := @unvisitedCount_le_of_subset web _ _ hsub
      exact ihr _ (by omega) (by omega)

/-- The visited-set guard keeps the fetch trace duplicate-free: every
fetched URL is recorded as visited, and a URL is only fetched when not
yet visited. -/
theorem parseRecFuel_fetch_inv (web : Web) :
    ∀ fuel : Nat,
      (∀ url st, st.fetched.Nodup → (∀ u ∈ st.fetched, u ∈ st.visited) →
        (parseRecFuel web fuel url st).fetched.Nodup ∧
        ∀ u ∈ (parseRecFuel web fuel url st).fetched,
          u ∈ (parseRecFuel web fuel url st).visited) ∧
      (∀ urls st, st.fetched.Nodup → (∀ u ∈ st.fetched, u ∈ st.visited) →
        (parseFoldFuel web fuel urls st).fetched.Nodup ∧
        ∀ u ∈ (parseFoldFuel web fuel urls st).fetched,
          u ∈ (parseFoldFuel web fuel urls st).visited) := by
  intro fuel
  induction fuel with
  | zero =>
    refine ⟨fun url st h1 h2 => ?_, fun urls st h1 h2 => ?_⟩
    · rw [parseRecFuel_zero]
      exact ⟨h1, h2⟩
    · rw [parseFoldFuel_zero]
      exact ⟨h1, h2⟩
  | succ f ih =>
    have hone : ∀ url st, st.fetched.Nodup → (∀ u ∈ st.fetched, u ∈ st.visited) →
        (parseRecFuel web (f + 1) url st).fetched.Nodup ∧
        ∀ u ∈ (parseRecFuel web (f + 1) url st).fetched,
          u ∈ (parseRecFuel web (f + 1) url st).visited := by
      intro url st h1 h2
      rw [parseRecFuel]
      by_cases hv : url ∈ st.visited
      · rw [if_pos hv]
        exact ⟨h1, h2⟩
      · rw [if_neg hv]
        have hnodup1 : (st.fetched ++ [url]).Nodup := by
          rw [List.nodup_append]
          refine ⟨h1, List.nodup_singleton url, ?_⟩
          intro u hu hu1
          rcases List.mem_singleton.mp hu1 with rfl
          exact hv (h2 u hu)
        have hsub1 : ∀ u ∈ st.fetched ++ [url], u ∈ url :: st.visited := by
          intro u hu
          rcases List.mem_append.mp hu with hu | hu
          · exact List.mem_cons_of_mem _ (h2 u hu)
          · rcases List.mem_singleton.mp hu with rfl
            exact List.mem_cons_self _ _
        cases hf : Web.fetch web url with
        | none => exact ⟨hnodup1, hsub1⟩
        | some doc =>
          by_cases hidx : isIndexByChild doc
          · simp only [hf, hidx, if_true]
            exact ih.2 (sitemapLocs doc)
              ⟨st.all_urls, url :: st.visited, st.fetched ++ [url]⟩ hnodup1 hsub1
          · simp only [hf, hidx, if_false, Bool.false_eq_true]
            exact ⟨hnodup1, hsub1⟩
    refine ⟨hone, fun urls => ?_⟩
    induction urls with
    | nil =>
      intro st h1 h2
      rw [parseFoldFuel_nil]
      exact ⟨h1, h2⟩
    | cons c rest ihr =>
      intro st h1 h2
      rw [parseFoldFuel_cons]
      obtain ⟨h1r, h2r⟩ := hone c st h1 h2
      exact ihr _ h1r h2r

theorem mem_foldl_insert (u : String) :
    ∀ (l acc : List String),
      (u ∈ l.foldl (fun a x => a.insert x) acc ↔ u ∈ acc ∨ u ∈ l) := by
  intro l
  induction l with
  | nil => simp
  | cons x rest ih =>
    intro acc
    rw [List.foldl_cons, ih, List.mem_insert_iff]
    constructor
    · rintro ((rfl | h) | h)
      · exact Or.inr (List.mem_cons_self _ _)
      · exact Or.inl h
      · exact Or.inr (List.mem_cons_of_mem _ h)
    · rintro (h | h)
      · exact Or.inl (Or.inr h)
      · rcases List.mem_cons.mp h with rfl | h
        · exact Or.inl (Or.inl rfl)
        · exact Or.inr h

theorem nodup_foldl_insert :
    ∀ (l acc : List String), acc.Nodup →
      (l.foldl (fun a x => a.insert x) acc).Nodup := by
  intro l
  induction l with
  | nil => exact fun acc h => h
  | cons x rest ih =>
    intro acc h
    rw [List.foldl_cons]
    exact ih _ (h.insert)

/-- Every URL accumulated into `all_urls` is a `<url><loc>` value of a
fetched document that the code processed in its leaf branch; the
`<sitemap><loc>` pointer entries of index-classified documents are only
recursed into, never accumulated. -/
theorem parseRecFuel_all_urls_origin (web : Web) :
    ∀ fuel : Nat,
      (∀ url st,
        (∀ u ∈ st.all_urls, ∃ surl doc, Web.fetch web surl = some doc ∧
          isIndexByChild doc = false ∧ u ∈ urlLocs doc) →
        ∀ u ∈ (parseRecFuel web fuel url st).all_urls,
          ∃ surl doc, Web.fetch web surl = some doc ∧
            isIndexByChild doc = false ∧ u ∈ urlLocs doc) ∧
      (∀ urls st,
        (∀ u ∈ st.all_urls, ∃ surl doc, Web.fetch web surl = some doc ∧
          isIndexByChild doc = false ∧ u ∈ urlLocs doc) →
        ∀ u ∈ (parseFoldFuel web fuel urls st).all_urls,
          ∃ surl doc, Web.fetch web surl = some doc ∧
            isIndexByChild doc = false ∧ u ∈ urlLocs doc) := by
  intro fuel
  induction fuel with
  | zero =>
    refine ⟨fun url st h => ?_, fun urls st h => ?_⟩
    · rw [parseRecFuel_zero]
      exact h
    · rw [parseFoldFuel_zero]
      exact h
  | succ f ih =>
    have hone : ∀ url st,
        (∀ u ∈ st.all_urls, ∃ surl doc, Web.fetch web surl = some doc ∧
          isIndexByChild doc = false ∧ u ∈ urlLocs doc) →
        ∀ u ∈ (parseRecFuel web (f + 1) url st).all_urls,
          ∃ surl doc, Web.fetch web surl = some doc ∧
            isIndexByChild doc = false ∧ u ∈ urlLocs doc := by
      intro url st h
      rw [parseRecFuel]
      by_cases hv : url ∈ st.visited
      · rw [if_pos hv]
        exact h
      · rw [if_neg hv]
        cases hf : Web.fetch web url with
        | none => exact h
        | some doc =>
          by_cases hidx : isIndexByChild doc
          · simp only [hf, hidx, if_true]
            exact ih.2 (sitemapLocs doc)
              ⟨st.all_urls, url :: st.visited, st.fetched ++ [url]⟩ h
          · simp only [hf, hidx, if_false, Bool.false_eq_true]
            intro u hu
            rcases (mem_foldl_insert u (urlLocs doc) st.all_urls).mp hu with hu | hu
            · exact h u hu
            · exact ⟨url, doc, hf, by simp [hidx], hu⟩
    refine ⟨hone, fun urls => ?_⟩
    induction urls with
    | nil =>
      intro st h
      rw [parseFoldFuel_nil]
      exact h
    | cons c rest ihr =>
      intro st h
      rw [parseFoldFuel_cons]
      exact ihr _ (hone c st h)

/-- The accumulator `all_urls` is maintained with set semantics: it stays
duplicate-free. -/
theorem parseRecFuel_all_urls_nodup (web : Web) :
    ∀ fuel : Nat,
      (∀ url st, st.all_urls.Nodup → (parseRecFuel web fuel url st).all_urls.Nodup) ∧
      (∀ urls st, st.all_urls.Nodup → (parseFoldFuel web fuel urls st).all_urls.Nodup) := by
  intro fuel
  induction fuel with
  | zero =>
    refine ⟨fun url st h => ?_, fun urls st h => ?_⟩
    · rw [parseRecFuel_zero]
      exact h
    · rw [parseFoldFuel_zero]
      exact h
  | succ f ih =>
    have hone : ∀ url st, st.all_urls.Nodup →
        (parseRecFuel web (f + 1) url st).all_urls.Nodup := by
      intro url st h
      rw [parseRecFuel]
      by_cases hv : url ∈ st.visited
      · rw [if_pos hv]
        exact h
      · rw [if_neg hv]
        cases hf : Web.fetch web url with
        | none => exact h
        | some doc =>
          by_cases hidx : isIndexByChild doc
          · simp only [hf, hidx, if_true]
            exact ih.2 (sitemapLocs doc)
              ⟨st.all_urls, url :: st.visited, st.fetched ++ [url]⟩ h
          · simp only [hf, hidx, if_false, Bool.false_eq_true]
            exact nodup_foldl_insert (urlLocs doc) st.all_urls h
    refine ⟨hone, fun urls => ?_⟩
    induction urls with
    | nil =>
      intro st h
      rw [parseFoldFuel_nil]
      exact h
    | cons c rest ihr =>
      intro st h
      rw [parseFoldFuel_cons]
      exact ihr _ (hone c st h)

theorem charListLe_iff_not_lex :
    ∀ l₁ l₂ : List Char, charListLe l₁ l₂ = true ↔
      ¬ List.Lex (fun c d : Char => c < d) l₂ l₁ := by
  intro l₁
  induction l₁ with
  | nil =>
    intro l₂
    simp only [charListLe]
    constructor
    · intro _ h
      cases h
    · intro _
      trivial
  | cons a as ih =>
    intro l₂
    cases l₂ with
    | nil =>
      simp only [charListLe]
      constructor
      · intro h
        cases h
      · intro h
        exact absurd List.Lex.nil h
    | cons b bs =>
      rw [charListLe]
      by_cases hab : a < b
      · rw [if_pos hab]
        constructor
        · intro _ h
          cases h with
          | cons h => exact absurd hab (lt_irrefl a)
          | rel h => exact absurd hab (lt_asymm h)
        · intro _
          rfl
      · rw [if_neg hab]
        by_cases hba : b < a
        · rw [if_pos hba]
          constructor
          · intro h
            cases h
          · intro h
            exact absurd (List.Lex.rel hba) h
        · rw [if_neg hba]
          have hEq : a = b := ((lt_trichotomy a b).resolve_left hab).resolve_right hba
          subst hEq
          rw [ih bs]
          constructor
          · intro h hlex
            cases hlex with
            | cons h2 => exact h h2
            | rel h2 => exact absurd h2 (lt_irrefl a)
          · intro h hlex
            exact h (List.Lex.cons hlex)

theorem strLe_iff_le (a b : String) : strLe a b = true ↔ a ≤ b := by
  rw [strLe, charListLe_iff_not_lex, String.le_iff_toList_le]
  exact @not_lt (List Char) _ (String.toList b) (String.toList a)

instance : IsTotal String (fun a b => strLe a b = true) :=
  ⟨fun a b => by
    rw [strLe_iff_le, strLe_iff_le]
    exact le_total a b⟩

instance : IsTrans String (fun a b => strLe a b = true) :=
  ⟨fun a b c hab hbc => by
    rw [strLe_iff_le] at hab hbc ⊢
    exact le_trans hab hbc⟩

/-- C6: sitemap resolution terminates for every input — the result of
the fuelled recursion is already stable at `parse_sitemap`'s fuel, so
larger call-stack budgets (including the unbounded Python one) change
nothing, even under cyclic or duplicate sitemap references — and the
visited-set guarantees each distinct sitemap URL is fetched at most once
during one `parse_sitemap` call: the fetch trace has no duplicates. -/
theorem sitemap_resolution_terminates (web : Web) (url : String) :
    (parse_sitemap web url).fetched.Nodup ∧
    ∀ fuel : Nat, web.length + 1 ≤ fuel →
      parseRecFuel web fuel url ⟨[], [], []⟩ = parse_sitemap web url := by
  constructor
  · exact ((parseRecFuel_fetch_inv web (web.length + 1)).1 url ⟨[], [], []⟩
      List.nodup_nil (fun u hu => absurd hu (List.not_mem_nil u))).1
  · intro fuel hfuel
    have hcount : unvisitedCount web [] ≤ web.length :=
      unvisitedCount_le_length web []
    exact (parseRecFuel_congr web fuel).1 (web.length + 1) url ⟨[], [], []⟩
      (by show unvisitedCount web [] < fuel; omega)
      (by show unvisitedCount web [] < web.length + 1; omega)

/-- Witness for `sitemap_resolution_terminates` on a network whose
reference graph contains a self-cycle and a duplicated child pointer:
each sitemap URL is still fetched once, and any larger fuel gives the
same result. -/
theorem sitemap_resolution_terminates_witness :
    (parse_sitemap webCyc "http://ex/cyc.xml").fetched
        = ["http://ex/cyc.xml", "http://ex/s1.xml"] ∧
    (parse_sitemap webCyc "http://ex/cyc.xml").fetched.Nodup ∧
    parseRecFuel webCyc 100 "http://ex/cyc.xml" ⟨[], [], []⟩
        = parse_sitemap webCyc "http://ex/cyc.xml" := by
  have h := sitemap_resolution_terminates webCyc "http://ex/cyc.xml"
  exact ⟨rfl, h.1, h.2 100 (by decide)⟩

/-- C8: every successful `get_all_urls` run returns a list that is
sorted, contains no duplicates, and consists only of `<url><loc>` values
of fetched documents processed as leaves — `<sitemap><loc>` index
pointer entries are recursed into but never enter the final set. -/
theorem get_all_urls_sorted_nodup_leaf_only (web : Web)
    (found : Option String) (urls : List String)
    (h : get_all_urls web found = Except.ok urls) :
    List.Sorted (fun a b : String => a ≤ b) urls ∧ urls.Nodup ∧
    ∀ u ∈ urls, ∃ surl doc, Web.fetch web surl = some doc ∧
      isIndexByChild doc = false ∧ u ∈ urlLocs doc := by
  rcases found with _ | sitemap_url
  · simp [get_all_urls] at h
  · rw [get_all_urls] at h
    by_cases hu : sitemap_url = ""
    · rw [if_pos hu] at h
      cases h
    · rw [if_neg hu] at h
      have hurls : urls = List.insertionSort (fun a b => strLe a b = true)
          (parse_sitemap web sitemap_url).all_urls := (Except.ok.inj h).symm

      have hperm := List.perm_insertionSort (fun a b => strLe a b = true)
        (parse_sitemap web sitemap_url).all_urls
      have hnodup0 : (parse_sitemap web sitemap_url).all_urls.Nodup :=
        (parseRecFuel_all_urls_nodup web (web.length + 1)).1 sitemap_url
          ⟨[], [], []⟩ List.nodup_nil
      refine ⟨?_, ?_, ?_⟩
      · rw [hurls]
        exact List.Pairwise.imp (fun hab => (strLe_iff_le _ _).mp hab)
          (List.sorted_insertionSort (fun a b => strLe a b = true) _)
      · rw [hurls]
        exact hperm.symm.nodup hnodup0
      · intro u hu2
        rw [hurls] at hu2
        have hmem : u ∈ (parse_sitemap web sitemap_url).all_urls :=
          hperm.mem_iff.mp hu2
        exact (parseRecFuel_all_urls_origin web (web.length + 1)).1 sitemap_url
          ⟨[], [], []⟩ (fun v hv => absurd hv (List.not_mem_nil v)) u hmem

/-- Witness for `get_all_urls_sorted_nodup_leaf_only` at a concrete
one-leaf network. -/
theorem get_all_urls_sorted_witness :
    List.Sorted (fun a b : String => a ≤ b)
        ["http://ex/c", "http://ex/d", "http://ex/e"] ∧
    (["http://ex/c", "http://ex/d", "http://ex/e"] : List String).Nodup ∧
    ∀ u ∈ (["http://ex/c", "http://ex/d", "http://ex/e"] : List String),
      ∃ surl doc, Web.fetch webLeaf surl = some doc ∧
        isIndexByChild doc = false ∧ u ∈ urlLocs doc :=
  get_all_urls_sorted_nodup_leaf_only webLeaf (some "http://ex/sitemap.xml")
    ["http://ex/c", "http://ex/d", "http://ex/e"] rfl

/-- C1 (code behaviour at the spec's Scenario B): on a network where
`/sitemap.xml` is a standard sitemap index — its *root element* is
`sitemapindex` — referencing two child leaf sitemaps with 2 and 3 page
URLs and no overlap, the code does not detect the index: its test
`root.find('sitemap:sitemapindex', ns)` looks for a `sitemapindex`
*child* of the root and finds none, so the index document is processed
in the leaf branch, the children are never fetched, and the resolver
returns the empty URL list instead of the 5 page URLs. -/
theorem scenario_b_index_root_not_detected :
    idxDocB.tag = "sitemapindex" ∧
    isIndexByChild idxDocB = false ∧
    (parse_sitemap webB "http://ex/sitemap.xml").all_urls = [] ∧
    (parse_sitemap webB "http://ex/sitemap.xml").fetched
        = ["http://ex/sitemap.xml"] ∧
    get_all_urls webB (some "http://ex/sitemap.xml") = Except.ok [] ∧
    sitemapLocs idxDocB = ["http://ex/s1.xml", "http://ex/s2.xml"] ∧
    urlLocs leafB1 ++ urlLocs leafB2
        = ["http://ex/a", "http://ex/b", "http://ex/c", "http://ex/d",
           "http://ex/e"] :=
  ⟨rfl, rfl, rfl, rfl, rfl, rfl, rfl⟩

end SEOAnalyzer
